import Mathlib

/-!
Shallow embedding of the sqldrift statement-tracking and execution engine
(src/lib/index.js, src/lib/commands/index.js, and the delimiter-aware
splitter of the sql-parser service), together with theorems settling the
frozen claims about it.

Conventions of the embedding:
* JavaScript strings are Lean `String`s; character codes are `Char.toNat`.
* JavaScript 32-bit truncation (`hash & hash`, `<<`) is `toInt32` on `Int`.
* The database is an abstract state type `Db`; running one statement is a
  function `Db → String → Option Db` (`none` = execution error).  A MySQL
  transaction is modelled by applying statements to a working copy that is
  committed on success and discarded on rollback.
* The persisted history file for the active (environment, script) pair is
  `Option History` (`none` = file absent).
* `new Date().toISOString()` is an opaque timestamp parameter `now`.
* LLM / parser validation of one statement is a function `String → Bool`
  (`false` = validation reports the statement invalid, which the source
  treats exactly like a failure: rollback and abort).
-/

namespace SqlDrift

/-- JavaScript `ToInt32`: reduce an integer to the signed 32-bit range.
This is what the bitwise operators in `generateHash` perform. -/
def toInt32 (n : Int) : Int := (n + 2 ^ 31) % 2 ^ 32 - 2 ^ 31

/-- One step of the rolling hash in `generateHash` (src/lib/index.js:305-314):
`hash = ((hash << 5) - hash) + charCode; hash = hash & hash`.  `hash << 5`
truncates the shifted value to 32 bits; the final `hash & hash` truncates the
whole sum to 32 bits. -/
def hashStep (h : Int) (c : Nat) : Int := toInt32 (toInt32 (h * 32) - h + c)

/-- The integer accumulated by `generateHash` over the character codes,
starting from 0. -/
def hashFold (cs : List Char) : Int := cs.foldl (fun h c => hashStep h c.toNat) 0

/-- `generateHash` (src/lib/index.js:305-314): 32-bit rolling hash of the
content, rendered in base 10 (with a leading minus sign when negative, as
`Number.prototype.toString` produces). -/
def generateHash (content : String) : String := toString (hashFold content.data)

/-- A parsed SQL statement as built by `parseSqlFile`: 1-based position,
trimmed text, and its hash. -/
structure Statement where
  id : Nat
  sql : String
  hash : String
  deriving DecidableEq, Repr

/-- One entry of the persisted history file.  The executed path
(src/lib/index.js:413-419) pushes `{id, hash, sql, executedAt}` with no
`recordedOnly` key; reading the absent key in JavaScript yields a falsy
value, encoded here as `recordedOnly = false`.  The record-only path
(src/lib/index.js:448-456) pushes the same fields with
`recordedOnly: true`. -/
structure HistoryRecord where
  id : Nat
  hash : String
  sql : String
  executedAt : String
  recordedOnly : Bool
  deriving DecidableEq, Repr

/-- The in-memory shape of a history file: `{ executed: [...] }`
(src/lib/index.js:279-284). -/
structure History where
  executed : List HistoryRecord
  deriving DecidableEq, Repr

/-- `loadHistory` (src/lib/index.js:279-284): read the file if it exists,
otherwise start from `{ executed: [] }`. -/
def loadHistory (file : Option History) : History := file.getD ⟨[]⟩

/-- `findNewStatements` (src/lib/index.js:316-319): keep the statements whose
hash is not among the hashes already recorded in `history.executed`. -/
def findNewStatements (statements : List Statement) (history : History) :
    List Statement :=
  let executedHashes := history.executed.map (fun item => item.hash)
  statements.filter (fun stmt => !(executedHashes.contains stmt.hash))

/-- The history record pushed for an executed statement
(src/lib/index.js:413-419); the source omits the `recordedOnly` key, whose
absent-key read is falsy. -/
def mkExecutedRecord (now : String) (s : Statement) : HistoryRecord :=
  ⟨s.id, s.hash, s.sql, now, false⟩

/-- The history record pushed by `recordHistoryOnly`
(src/lib/index.js:448-456), carrying `recordedOnly: true`. -/
def mkRecordedOnlyRecord (now : String) (s : Statement) : HistoryRecord :=
  ⟨s.id, s.hash, s.sql, now, true⟩

/-- The statement loop of `executeStatements` (src/lib/index.js:358-420):
validate each statement, execute it against the transaction's working state,
and push its history record.  `none` means some statement failed validation
or execution, which the source answers with `connection.rollback()` and an
abort. -/
def execLoop {Db : Type} (validate : String → Bool)
    (runStmt : Db → String → Option Db) (now : String) :
    List Statement → Db → List HistoryRecord →
      Option (Db × List HistoryRecord)
  | [], d, recs => some (d, recs)
  | s :: rest, d, recs =>
    if validate s.sql then
      match runStmt d s.sql with
      | some d2 => execLoop validate runStmt now rest d2
          (recs ++ [mkExecutedRecord now s])
      | none => none
    else none

/-- Outcome of `executeStatements`: the database state after commit or
rollback, the content of the history file afterwards, and whether the run
succeeded. -/
structure ExecResult (Db : Type) where
  db : Db
  file : Option History
  ok : Bool
  deriving DecidableEq, Repr

/-- `executeStatements` (src/lib/index.js:344-436): begin a transaction, run
the loop; on success commit and write the whole updated history file; on any
failure roll back (the database keeps its prior state) and write nothing
(the history file keeps its prior content). -/
def executeStatements {Db : Type} (validate : String → Bool)
    (runStmt : Db → String → Option Db) (statements : List Statement)
    (db : Db) (history : History) (file : Option History) (now : String) :
    ExecResult Db :=
  match execLoop validate runStmt now statements db [] with
  | some (d2, recs) => ⟨d2, some ⟨history.executed ++ recs⟩, true⟩
  | none => ⟨db, file, false⟩

/-- `recordHistoryOnly` (src/lib/index.js:438-464): append one
`recordedOnly: true` record per statement, in order, and persist the log. -/
def recordHistoryOnly (statements : List Statement) (history : History)
    (now : String) : History :=
  ⟨history.executed ++ statements.map (mkRecordedOnlyRecord now)⟩

/-- Outcome of `clearHistory`: the history file afterwards, whether the
deleted (rather than not-found) message was reported, whether a database
connection was opened, and success. -/
structure ClearResult where
  file : Option History
  reportedDeleted : Bool
  connected : Bool
  ok : Bool
  deriving DecidableEq, Repr

/-- `clearHistory` (src/lib/index.js:466-476): delete the history file if it
exists and report the deletion, otherwise report that none was found; either
way succeed and never touch the database. -/
def clearHistory (file : Option History) : ClearResult :=
  match file with
  | some _ => ⟨none, true, false, true⟩
  | none => ⟨none, false, false, true⟩

/-- Outcome of one `run` invocation: final database state, history file
content, whether a database connection was opened, and success. -/
structure RunOutcome (Db : Type) where
  db : Db
  file : Option History
  connected : Bool
  ok : Bool
  deriving DecidableEq, Repr

/-- The mode dispatch of `run` (src/lib/index.js:124-160), starting after the
script has been split into `statements`: the clear-history flag is checked
first and returns at once; then history is loaded and diffed; no new
statements is a success no-op; the record-history flag appends to history
without any database connection; otherwise a confirmed run opens a
connection and executes, and a declined confirmation is a success no-op. -/
def runCli {Db : Type} (clearFlag recordFlag confirmed : Bool)
    (validate : String → Bool) (runStmt : Db → String → Option Db)
    (statements : List Statement) (file : Option History) (db : Db)
    (now : String) : RunOutcome Db :=
  if clearFlag then
    ⟨db, (clearHistory file).file, (clearHistory file).connected,
      (clearHistory file).ok⟩
  else
    let history := loadHistory file
    let newStatements := findNewStatements statements history
    if newStatements.isEmpty then ⟨db, file, false, true⟩
    else if recordFlag then
      ⟨db, some (recordHistoryOnly newStatements history now), false, true⟩
    else if confirmed then
      let r := executeStatements validate runStmt newStatements db history
        file now
      ⟨r.db, r.file, true, r.ok⟩
    else ⟨db, file, false, true⟩

/-- The single-quote character, written by code point to keep the sources
plain. -/
def singleQuoteChar : Char := Char.ofNat 39

/-- The double-quote character. -/
def doubleQuoteChar : Char := Char.ofNat 34

/-- The backquote character used for MySQL quoted identifiers. -/
def backQuoteChar : Char := Char.ofNat 96

/-- The quote test of `splitBySemicolon`
(sql-parser-service, src/unnamed/part_004:135). -/
def isQuoteChar (c : Char) : Bool :=
  c = singleQuoteChar || c = doubleQuoteChar || c = backQuoteChar

/-- JavaScript `String.prototype.trim`: drop whitespace from both ends. -/
def trimChars (cs : List Char) : List Char :=
  ((cs.dropWhile Char.isWhitespace).reverse.dropWhile Char.isWhitespace).reverse

/-- The scanning loop of `splitBySemicolon`
(sql-parser-service, src/unnamed/part_004:123-170).  State: remaining input,
`some q` when inside a literal opened by quote `q` (`none` otherwise), the
statement built so far, and the statements already emitted.  Outside a
literal, a quote enters literal state and a semicolon emits the trimmed
current statement; inside a literal every character is appended, a doubled
quote character stays inside, and a single closing quote leaves.  At the end
of input the trimmed current statement is emitted if nonempty. -/
def splitAux : List Char → Option Char → List Char → List (List Char) →
    List (List Char)
  | [], _, cur, acc => if trimChars cur ≠ [] then acc ++ [trimChars cur] else acc
  | c :: rest, none, cur, acc =>
    if isQuoteChar c then splitAux rest (some c) (cur ++ [c]) acc
    else if c = ';' then
      if trimChars cur ≠ [] then splitAux rest none [] (acc ++ [trimChars cur])
      else splitAux rest none [] acc
    else splitAux rest none (cur ++ [c]) acc
  | c :: c2 :: rest2, some q, cur, acc =>
    if c = q then
      if c2 = q then splitAux rest2 (some q) (cur ++ [c, c2]) acc
      else splitAux (c2 :: rest2) none (cur ++ [c]) acc
    else splitAux (c2 :: rest2) (some q) (cur ++ [c]) acc
  | [c], some q, cur, acc =>
    if c = q then splitAux [] none (cur ++ [c]) acc
    else splitAux [] (some q) (cur ++ [c]) acc

/-- `splitBySemicolon` (sql-parser-service, src/unnamed/part_004:123-170). -/
def splitBySemicolon (content : String) : List String :=
  (splitAux content.data none [] []).map (fun cs => String.mk cs)

/-- JavaScript `content.split(sep)` for a one-character separator, on
character lists. -/
def splitOnSemicolon : List Char → List (List Char)
  | [] => [[]]
  | c :: rest =>
    if c = ';' then [] :: splitOnSemicolon rest
    else
      match splitOnSemicolon rest with
      | [] => [[c]]
      | g :: gs => (c :: g) :: gs

/-- The regex test for a leading `--` line comment (optionally after
whitespace) used by the naive `parseSqlFile` filter. -/
def startsWithLineComment (s : List Char) : Bool :=
  match s.dropWhile Char.isWhitespace with
  | c1 :: c2 :: _ => c1 = '-' && c2 = '-'
  | _ => false

/-- The regex test for a leading block-comment opener (optionally after
whitespace) used by the naive `parseSqlFile` filter. -/
def startsWithBlockComment (s : List Char) : Bool :=
  match s.dropWhile Char.isWhitespace with
  | c1 :: c2 :: _ => c1 = '/' && c2 = '*'
  | _ => false

/-- The statement-splitting core of the naive `parseSqlFile`
(src/lib/commands/index.js:182-196): split the whole content on every
semicolon, trim each piece, and keep the nonempty pieces that do not start
as comments.  No literal handling of any kind. -/
def naiveSplitStatements (content : List Char) : List (List Char) :=
  ((splitOnSemicolon content).map trimChars).filter
    (fun s => !s.isEmpty && !startsWithLineComment s && !startsWithBlockComment s)

/-- Membership in the output of `findNewStatements`: a statement survives the
filter exactly when it occurs in the input and its hash is not among the
hashes recorded in history. -/
theorem mem_findNewStatements (stmts : List Statement) (hist : History)
    (s : Statement) :
    s ∈ findNewStatements stmts hist ↔
      s ∈ stmts ∧ s.hash ∉ hist.executed.map (fun r => r.hash) := by
  simp [findNewStatements]

/-- C2: `findNewStatements` returns exactly the statements whose hash is
absent from the hashes of `history.executed`, in input order (the output is
a sublist of the input); the empty statement list gives the empty output and
the empty history returns the input unchanged. -/
theorem findNewStatements_spec (stmts : List Statement) (hist : History) :
    (findNewStatements stmts hist).Sublist stmts ∧
    (∀ s : Statement, s ∈ findNewStatements stmts hist ↔
      s ∈ stmts ∧ s.hash ∉ hist.executed.map (fun r => r.hash)) ∧
    findNewStatements [] hist = [] ∧
    findNewStatements stmts ⟨[]⟩ = stmts := by
  refine ⟨List.filter_sublist _, mem_findNewStatements stmts hist, rfl, ?_⟩
  simp [findNewStatements]

/-- C3: appending one history record carrying each new statement's hash
(executed or record-only alike) makes a second `findNewStatements` on the
same statement list return nothing. -/
theorem findNewStatements_append_covers (stmts : List Statement)
    (hist : History) (recs : List HistoryRecord)
    (hcover : ∀ s ∈ findNewStatements stmts hist,
      s.hash ∈ recs.map (fun r => r.hash)) :
    findNewStatements stmts ⟨hist.executed ++ recs⟩ = [] := by
  rw [List.eq_nil_iff_forall_not_mem]
  intro s hs
  rw [mem_findNewStatements] at hs
  simp only [List.map_append, List.mem_append] at hs
  have hnew : s ∈ findNewStatements stmts hist := by
    rw [mem_findNewStatements]
    exact ⟨hs.1, fun hmem => hs.2 (Or.inl hmem)⟩
  exact hs.2 (Or.inr (hcover s hnew))

/-- Witness for C3 at a concrete input: recording the single new statement's
hash empties the next diff. -/
theorem findNewStatements_append_covers_witness :
    findNewStatements [⟨1, "A", "7"⟩] ⟨(⟨[]⟩ : History).executed ++
      [⟨1, "7", "A", "t", true⟩]⟩ = [] :=
  findNewStatements_append_covers [⟨1, "A", "7"⟩] ⟨[]⟩
    [⟨1, "7", "A", "t", true⟩] (by decide)

/-- C1: if any statement of the batch fails (validation or execution), the
transaction is rolled back — the database keeps its prior state — and the
history file is not written at all, so persisted history is unchanged even
for statements earlier in the batch that succeeded. -/
theorem executeStatements_failure_rollback {Db : Type}
    (validate : String → Bool) (runStmt : Db → String → Option Db)
    (stmts : List Statement) (db : Db) (hist : History)
    (file : Option History) (now : String)
    (hfail : execLoop validate runStmt now stmts db [] = none) :
    executeStatements validate runStmt stmts db hist file now =
      ⟨db, file, false⟩ := by
  unfold executeStatements
  rw [hfail]

/-- Witness for C1: a batch whose only statement fails leaves the database at
its initial state and the history file with its prior content. -/
theorem executeStatements_failure_rollback_witness :
    executeStatements (fun _ => true) (fun (_ : Nat) _ => none)
      [⟨1, "A", "7"⟩] 0 ⟨[]⟩ (some ⟨[]⟩) "t" = ⟨0, some ⟨[]⟩, false⟩ :=
  executeStatements_failure_rollback _ _ _ _ _ _ _ rfl

/-- The record list accumulated by a successful `execLoop` is the input
accumulator followed by one executed-record per statement, in order. -/
theorem execLoop_records {Db : Type} (validate : String → Bool)
    (runStmt : Db → String → Option Db) (now : String)
    (stmts : List Statement) :
    ∀ (d : Db) (recs : List HistoryRecord) (d2 : Db)
      (out : List HistoryRecord),
      execLoop validate runStmt now stmts d recs = some (d2, out) →
      out = recs ++ stmts.map (mkExecutedRecord now) := by
  induction stmts with
  | nil =>
    intro d recs d2 out h
    simp only [execLoop, Option.some.injEq, Prod.mk.injEq] at h
    simp [h.2]
  | cons s rest ih =>
    intro d recs d2 out h
    simp only [execLoop] at h
    cases hv : validate s.sql with
    | false => rw [hv] at h; simp at h
    | true =>
      rw [hv] at h
      simp only [if_true] at h
      cases hr : runStmt d s.sql with
      | none => rw [hr] at h; simp at h
      | some d3 =>
        rw [hr] at h
        have := ih d3 (recs ++ [mkExecutedRecord now s]) d2 out h
        simpa [List.append_assoc] using this

/-- C7: after a successful execute run, the persisted history is the prior
log followed by exactly one record per executed statement, in order, each
carrying the statement's id, hash, sql text, the timestamp, and
`recordedOnly = false`. -/
theorem executeStatements_success_records {Db : Type}
    (validate : String → Bool) (runStmt : Db → String → Option Db)
    (stmts : List Statement) (db : Db) (hist : History)
    (file : Option History) (now : String)
    (hok : (executeStatements validate runStmt stmts db hist file now).ok =
      true) :
    (executeStatements validate runStmt stmts db hist file now).file =
      some ⟨hist.executed ++
        stmts.map (fun s => ⟨s.id, s.hash, s.sql, now, false⟩)⟩ := by
  unfold executeStatements at hok ⊢
  cases h : execLoop validate runStmt now stmts db [] with
  | none => rw [h] at hok; simp at hok
  | some p =>
    obtain ⟨d2, out⟩ := p
    have hout := execLoop_records validate runStmt now stmts db [] d2 out h
    simp only [List.nil_append] at hout
    simp [hout, mkExecutedRecord]

/-- Witness for C7: executing two fresh statements records both of them, in
order, with `recordedOnly = false`. -/
theorem executeStatements_success_records_witness :
    (executeStatements (fun _ => true) (fun (d : Nat) _ => some (d + 1))
      [⟨1, "A", "7"⟩, ⟨2, "B", "8"⟩] 0 ⟨[]⟩ none "t").file =
      some ⟨[⟨1, "7", "A", "t", false⟩, ⟨2, "8", "B", "t", false⟩]⟩ := by
  have h := executeStatements_success_records (fun _ => true)
    (fun (d : Nat) _ => some (d + 1)) [⟨1, "A", "7"⟩, ⟨2, "B", "8"⟩] 0 ⟨[]⟩
    none "t" rfl
  simpa using h

/-- C5: in record-history mode no database connection is opened for any
configuration: with no new statements the run is a success no-op, and
otherwise the log is persisted with exactly one `recordedOnly = true` record
appended per new statement, in order. -/
theorem recordHistory_mode_no_connection {Db : Type} (confirmed : Bool)
    (validate : String → Bool) (runStmt : Db → String → Option Db)
    (stmts : List Statement) (file : Option History) (db : Db)
    (now : String) :
    (runCli false true confirmed validate runStmt stmts file db
      now).connected = false ∧
    (runCli false true confirmed validate runStmt stmts file db now).ok =
      true ∧
    (runCli false true confirmed validate runStmt stmts file db now).db =
      db ∧
    (runCli false true confirmed validate runStmt stmts file db now).file =
      (if (findNewStatements stmts (loadHistory file)).isEmpty then file
       else some ⟨(loadHistory file).executed ++
         (findNewStatements stmts (loadHistory file)).map
           (fun s => ⟨s.id, s.hash, s.sql, now, true⟩)⟩) := by
  unfold runCli
  cases h : (findNewStatements stmts (loadHistory file)).isEmpty <;>
    simp [h, recordHistoryOnly, mkRecordedOnlyRecord]

/-- C6: clear-history deletes the history file when present and reports
absence otherwise, always succeeds, never opens a database connection, and
a second clear-history right after reports absence and succeeds again. -/
theorem clearHistory_succeeds_idempotent (file : Option History) :
    (clearHistory file).file = none ∧
    (clearHistory file).ok = true ∧
    (clearHistory file).connected = false ∧
    (clearHistory file).reportedDeleted = file.isSome ∧
    (clearHistory (clearHistory file).file).reportedDeleted = false ∧
    (clearHistory (clearHistory file).file).ok = true := by
  cases file <;> simp [clearHistory]

/-- C8 counterexample: with both record-history and clear-history requested,
the run is not a configuration error — it succeeds and deletes the history
file, i.e. clear-history's effect is silently chosen. -/
theorem bothFlags_no_error_counterexample :
    (runCli true true true (fun _ => true) (fun (d : Nat) _ => some d)
      [⟨1, "A", "7"⟩] (some ⟨[]⟩) 0 "t").ok = true ∧
    (runCli true true true (fun _ => true) (fun (d : Nat) _ => some d)
      [⟨1, "A", "7"⟩] (some ⟨[]⟩) 0 "t").file = none := by
  exact ⟨rfl, rfl⟩

/-- C8 (amended): when both mode flags are requested, no configuration error
is raised; the clear-history check runs first, so the history file is
deleted and record-history is silently ignored, for every input. -/
theorem bothFlags_clear_precedence {Db : Type} (recordFlag confirmed : Bool)
    (validate : String → Bool) (runStmt : Db → String → Option Db)
    (stmts : List Statement) (file : Option History) (db : Db)
    (now : String) :
    runCli true recordFlag confirmed validate runStmt stmts file db now =
      ⟨db, none, false, true⟩ := by
  cases file <;> simp [runCli, clearHistory]

/-- C4: `generateHash` is a total deterministic function of the exact
character sequence of its input — equal character data gives the identical
output, and it is defined on the empty string. -/
theorem generateHash_total_deterministic :
    (∀ s t : String, s.data = t.data → generateHash s = generateHash t) ∧
    generateHash "" = "0" := by
  constructor
  · intro s t h
    unfold generateHash
    rw [h]
  · decide

/-- Witness for C4: two separately-built strings with the same characters
hash identically. -/
theorem generateHash_total_deterministic_witness :
    generateHash "ab" = generateHash (String.mk ['a', 'b']) :=
  generateHash_total_deterministic.1 "ab" (String.mk ['a', 'b']) rfl

/-- `toInt32` lands in the signed 32-bit range. -/
theorem toInt32_range (n : Int) :
    -(2 ^ 31) ≤ toInt32 n ∧ toInt32 n < 2 ^ 31 := by
  unfold toInt32
  have h1 : (0 : Int) ≤ (n + 2 ^ 31) % 2 ^ 32 :=
    Int.emod_nonneg _ (by norm_num)
  have h2 : (n + 2 ^ 31) % 2 ^ 32 < 2 ^ 32 :=
    Int.emod_lt_of_pos _ (by norm_num)
  have e1 : (2 : Int) ^ 31 = 2147483648 := by norm_num
  have e2 : (2 : Int) ^ 32 = 4294967296 := by norm_num
  rw [e1, e2] at *
  omega

/-- Each hash step lands in the signed 32-bit range. -/
theorem hashStep_range (h : Int) (c : Nat) :
    -(2 ^ 31) ≤ hashStep h c ∧ hashStep h c < 2 ^ 31 := toInt32_range _

/-- The hash fold stays in the signed 32-bit range from any in-range seed. -/
theorem foldl_hashStep_range (cs : List Char) :
    ∀ a : Int, -(2 ^ 31) ≤ a → a < 2 ^ 31 →
      -(2 ^ 31) ≤ cs.foldl (fun h c => hashStep h c.toNat) a ∧
      cs.foldl (fun h c => hashStep h c.toNat) a < 2 ^ 31 := by
  induction cs with
  | nil => intro a h1 h2; exact ⟨h1, h2⟩
  | cons c rest ih =>
    intro a _ _
    simpa using ih (hashStep a c.toNat) (hashStep_range a c.toNat).1
      (hashStep_range a c.toNat).2

/-- `hashFold` always lands in the signed 32-bit range. -/
theorem hashFold_range (cs : List Char) :
    -(2 ^ 31) ≤ hashFold cs ∧ hashFold cs < 2 ^ 31 :=
  foldl_hashStep_range cs 0 (by norm_num) (by norm_num)

set_option maxRecDepth 8000 in
/-- C10: `generateHash` is the base-10 rendering of the signed 32-bit
integer folded by the shifted rolling hash from 0; the empty string hashes
to "0", and the result can denote a negative number. -/
theorem generateHash_int32_decimal :
    (∀ s : String, generateHash s = toString (hashFold s.data) ∧
      -(2 ^ 31) ≤ hashFold s.data ∧ hashFold s.data < 2 ^ 31) ∧
    generateHash "" = "0" ∧
    hashFold "Hello World".data < 0 ∧
    generateHash "Hello World" = "-862545276" := by
  refine ⟨fun s => ⟨rfl, hashFold_range s.data⟩, by decide, by decide,
    by decide⟩

/-- The body of a quoted literal as the scanner sees it: any run of
characters in which the quote character occurs only as a doubled (escaped)
pair. -/
inductive LiteralBody (q : Char) : List Char → Prop
  | nil : LiteralBody q []
  | chr {c : Char} {rest : List Char} :
      c ≠ q → LiteralBody q rest → LiteralBody q (c :: rest)
  | esc {rest : List Char} : LiteralBody q rest → LiteralBody q (q :: q :: rest)

/-- Inside a literal opened by `q`, the scanner consumes the whole body and
the closing quote verbatim into the current statement, returning to the
outside state: semicolons in the body never split, and a doubled quote does
not close the literal. -/
theorem splitAux_consume_literal (q : Char) (body : List Char)
    (hb : LiteralBody q body) :
    ∀ (rest : List Char), rest.head? ≠ some q →
      ∀ (cur : List Char) (acc : List (List Char)),
        splitAux (body ++ q :: rest) (some q) cur acc =
          splitAux rest none (cur ++ body ++ [q]) acc := by
  induction hb with
  | nil =>
    intro rest hrest cur acc
    cases rest with
    | nil => simp [splitAux]
    | cons r rs =>
      have hr : ¬(r = q) := by simpa using hrest
      simp [splitAux, hr]
  | @chr c body2 hc _ ih =>
    intro rest hrest cur acc
    obtain ⟨c2, rest2, heq⟩ : ∃ c2 rest2, body2 ++ q :: rest = c2 :: rest2 := by
      cases body2 with
      | nil => exact ⟨q, rest, rfl⟩
      | cons b bs => exact ⟨b, bs ++ q :: rest, rfl⟩
    have hshape : (c :: body2) ++ q :: rest = c :: c2 :: rest2 := by
      rw [List.cons_append, heq]
    rw [hshape]
    rw [splitAux]
    rw [if_neg hc, ← heq, ih rest hrest (cur ++ [c]) acc]
    simp
  | @esc body2 _ ih =>
    intro rest hrest cur acc
    have hshape : (q :: q :: body2) ++ q :: rest =
        q :: q :: (body2 ++ q :: rest) := by simp
    rw [hshape]
    rw [splitAux]
    rw [if_pos rfl, if_pos rfl, ih rest hrest (cur ++ [q, q]) acc]
    simp

/-- C9 counterexample: the naive `parseSqlFile` splitter cited by the claim
splits on the semicolon inside a single-quoted literal, yielding three
broken statements, while the literal-aware `splitBySemicolon` keeps the
literal intact and yields two. -/
theorem naiveSplit_splits_inside_literal :
    naiveSplitStatements
        ['A', ' ', singleQuoteChar, ';', singleQuoteChar, ' ', 'B', ';', 'C'] =
      [['A', ' ', singleQuoteChar], [singleQuoteChar, ' ', 'B'], ['C']] ∧
    splitBySemicolon (String.mk
        ['A', ' ', singleQuoteChar, ';', singleQuoteChar, ' ', 'B', ';', 'C']) =
      [String.mk ['A', ' ', singleQuoteChar, ';', singleQuoteChar, ' ', 'B'],
        String.mk ['C']] := by
  constructor <;> decide

/-- C9 (amended): the literal-aware splitter `splitBySemicolon` never treats
a semicolon inside a single-, double-, or backtick-quoted literal as a
statement terminator, and a doubled quote inside the literal does not close
it prematurely: from the outside state the whole literal is consumed
verbatim into the current statement.  (The legacy naive split-on-semicolon
`parseSqlFile` variants do not satisfy this.) -/
theorem splitBySemicolon_respects_literals (q : Char)
    (hq : q = singleQuoteChar ∨ q = doubleQuoteChar ∨ q = backQuoteChar)
    (body : List Char) (hb : LiteralBody q body) (rest : List Char)
    (hrest : rest.head? ≠ some q) (cur : List Char)
    (acc : List (List Char)) :
    splitAux ((q :: body) ++ q :: rest) none cur acc =
      splitAux rest none (cur ++ (q :: body) ++ [q]) acc := by
  have hqc : isQuoteChar q = true := by
    rcases hq with h | h | h <;> simp [isQuoteChar, h]
  have hcons : (q :: body) ++ q :: rest = q :: (body ++ q :: rest) := by simp
  rw [hcons]
  rw [splitAux]
  rw [if_pos hqc, splitAux_consume_literal q body hb rest hrest (cur ++ [q]) acc]
  simp

/-- Witness for C9 (amended): a double-quoted literal containing a semicolon
and an escaped (doubled) quote is consumed whole; as a consequence the
splitter yields the two intended statements on the full string. -/
theorem splitBySemicolon_respects_literals_witness :
    (splitAux ((doubleQuoteChar ::
        ['a', ';', doubleQuoteChar, doubleQuoteChar, 'b']) ++
        doubleQuoteChar :: [';', 'X']) none [] [] =
      splitAux [';', 'X'] none
        ([] ++ (doubleQuoteChar ::
          ['a', ';', doubleQuoteChar, doubleQuoteChar, 'b']) ++
          [doubleQuoteChar]) []) ∧
    splitBySemicolon (String.mk (doubleQuoteChar ::
        'a' :: ';' :: doubleQuoteChar :: doubleQuoteChar :: 'b' ::
        doubleQuoteChar :: ';' :: 'X' :: [])) =
      [String.mk (doubleQuoteChar :: 'a' :: ';' :: doubleQuoteChar ::
        doubleQuoteChar :: 'b' :: doubleQuoteChar :: []), String.mk ['X']] := by
  refine ⟨splitBySemicolon_respects_literals doubleQuoteChar
    (Or.inr (Or.inl rfl))
    ['a', ';', doubleQuoteChar, doubleQuoteChar, 'b']
    (.chr (by decide) (.chr (by decide) (.esc (.chr (by decide) .nil))))
    [';', 'X'] (by decide) [] [], by decide⟩

end SqlDrift
